import Mathlib

/-!
Verification of the coordinate-matrix construction and dataset-assembly layer
of `pycroscopy/core/io/translator.py`.

Conventions of the shallow embedding:
* numpy 2D arrays of shape `(rows, cols)` are represented by their list of
  columns (`mat[j]` is the numpy column `a[:, j]`), since `make_position_mat`
  builds its output column by column; `a.transpose()` is `transposeM`;
* machine floats (`np.float32`) are embedded as exact rationals `ℚ`: every
  float operation performed by the source on these arrays is a single
  multiply-add on values the claims treat symbolically;
* `np.uint32` position indices are embedded as `Nat` (entries are bounded by
  the axis sizes);
* Python `dict` objects are association lists in insertion order, with
  assignment `d[k] = v` modelled by `dictInsert` (replace in place when the
  key is present, append otherwise);
* Python `slice` objects are `(start?, stop?)` pairs: `slice(b)` is
  `(none, b)` and `slice(a, b)` is `(some a, some b)`;
* fallible code returns `Except String`.
-/

/-- Python `slice` restricted to the forms used by the source:
`slice(stop)` = `(none, stop)`, `slice(start, stop)` = `(some start, some stop)`.
A `stop` of `none` means the slice spans the whole dimension. -/
abbrev PySlice : Type := Option Nat × Option Nat

/-- The dictionaries returned by `get_position_slicing` / `get_spectral_slicing`:
axis label to a `(row_slice, column_slice)` pair. -/
abbrev SliceDict : Type := List (String × (PySlice × PySlice))

/-- Python dict assignment `d[k] = v` on an insertion-ordered association list:
if the key is present its value is replaced in place, otherwise the pair is
appended at the end. -/
def dictInsert {α : Type} (d : List (String × α)) (k : String) (v : α) :
    List (String × α) :=
  if d.any (fun p => p.1 == k) then d.map (fun p => if p.1 == k then (k, v) else p)
  else d ++ [(k, v)]

/-- Models `np.tile(l, reps)` for a 1-D array: `reps` concatenated copies of `l`. -/
def npTile {α : Type} (l : List α) (reps : Nat) : List α :=
  (List.replicate reps l).flatten

/-- Models the body of the loop in `make_position_mat` for one active axis
`indx`: `np.tile(np.floor(np.arange(part1)/part2), part3)` with
`part1 = prod(num_steps[:indx+1])`,
`part2 = prod(num_steps[:indx])` when `indx > 0` else `1`, and
`part3 = prod(num_steps[indx+1:])` when `indx+1 < len(num_steps)` else `1`.
The float division followed by floor is exact `Nat` division here. -/
def posCol (num_steps : List Nat) (indx : Nat) : List Nat :=
  let part1 := (num_steps.take (indx + 1)).prod
  let part2 := if 0 < indx then (num_steps.take indx).prod else 1
  let part3 := if indx + 1 = num_steps.length then 1 else (num_steps.drop (indx + 1)).prod
  npTile ((List.range part1).map (fun r => r / part2)) part3

/-- Models `make_position_mat(num_steps)`: a `np.zeros((prod, max(1, number of
sizes above 1)))` matrix whose columns are filled, in order, with `posCol` for
each axis of size above 1.  When no axis has size above 1 the single zero
column survives; otherwise every column is overwritten, so the result is the
list of `posCol` columns. -/
def make_position_mat (num_steps : List Nat) : List (List Nat) :=
  let active := (List.range num_steps.length).filter
    (fun k => decide (1 < num_steps.getD k 0))
  if active.isEmpty then [List.replicate num_steps.prod 0]
  else active.map (posCol num_steps)

/-- Models `a.transpose()` for a rectangular numpy array represented by its
columns: row `r` of `m` becomes column `r` of the result.  `dflt` is never
read on rectangular input (every column of the matrices in this file has
length equal to the row count). -/
def transposeM {α : Type} (dflt : α) (m : List (List α)) : List (List α) :=
  (List.range (m.headD []).length).map (fun r => m.map (fun col => col.getD r dflt))

/-- Models `get_position_slicing(pos_lab, curr_pix)`: for the axis at position
`spat_ind` the dict entry is `(slice(curr_pix), slice(spat_ind, spat_ind+1))`. -/
def get_position_slicing (pos_lab : List String) (curr_pix : Option Nat) : SliceDict :=
  pos_lab.enum.foldl
    (fun d p => dictInsert d p.2 ((none, curr_pix), (some p.1, some (p.1 + 1)))) []

/-- Models `get_spectral_slicing(spec_lab, curr_spec)`: for the axis at position
`spat_ind` the dict entry is `(slice(spat_ind, spat_ind+1), slice(curr_spec))`. -/
def get_spectral_slicing (spec_lab : List String) (curr_spec : Option Nat) : SliceDict :=
  spec_lab.enum.foldl
    (fun d p => dictInsert d p.2 ((some p.1, some (p.1 + 1)), (none, curr_spec))) []

/-- Models the argument validation pattern of `build_ind_val_dsets`: an omitted
optional per-axis array is replaced by its default, a supplied one must have
length `n` or the given `ValueError` message is raised. -/
def checkLen {α : Type} (arr : Option (List α)) (dflt : List α) (n : Nat)
    (msg : String) : Except String (List α) :=
  match arr with
  | none => Except.ok dflt
  | some a => if a.length = n then Except.ok a else Except.error msg

/-- Models the line `values = initial_values + np.float32(indices)*steps` of
`build_ind_val_dsets`, where `initial_values` and `steps` have been promoted by
`np.atleast_2d` to shape `(1, n)` (`n = len(dimensions)`, and the two always
have equal length at this call site) and `indices` has shape `(points, m)`.
numpy broadcasting accepts the operands iff `m = n`, `m = 1` or `n = 1`; the
result has `max m n` columns, column `k` reading column `min k (m-1)` of
`indices` and entry `min k (n-1)` of the two 1-row operands. -/
def npBroadcastAddMul (initial_values steps : List ℚ) (indices : List (List Nat)) :
    Except String (List (List ℚ)) :=
  let m := indices.length
  let n := steps.length
  if m = n ∨ m = 1 ∨ n = 1 then
    Except.ok ((List.range (max m n)).map (fun k =>
      (indices.getD (if m = 1 then 0 else k) []).map (fun v =>
        initial_values.getD (if n = 1 then 0 else k) 0 +
          (Nat.cast v : ℚ) * steps.getD (if n = 1 then 0 else k) 0)))
  else Except.error "operands could not be broadcast together"

/-- Models a `MicroDataset` carrying the fields `build_ind_val_dsets` sets:
its name, its array payload (list of columns), and the `labels` / `units`
attributes.  `units` is `none` when the attribute was never attached. -/
structure MicroDataset (α : Type) where
  name : String
  data : List (List α)
  labels : SliceDict
  units : Option (List String)
deriving DecidableEq

/-- Models `build_ind_val_dsets(dimensions, is_spectral, steps, initial_values,
labels, units)` (the `verbose` printing is omitted).  Mirrors the source order:
length-check `steps`, `initial_values`, `labels`; build the index matrix; form
`values` by broadcasting; transpose both matrices and pick the slicing
orientation and name prefix according to `is_spectral`; create both datasets
with the `labels` attribute; finally length-check `units` (the source performs
this check only after the datasets exist, and reuses the labels error text). -/
def build_ind_val_dsets (dimensions : List Nat) (is_spectral : Bool)
    (steps0 initial_values0 : Option (List ℚ))
    (labels0 units0 : Option (List String)) :
    Except String (MicroDataset Nat × MicroDataset ℚ) :=
  match checkLen steps0 (List.replicate dimensions.length (1 : ℚ)) dimensions.length
      "The arrays for step sizes and dimension sizes must be the same." with
  | Except.error e => Except.error e
  | Except.ok steps =>
  match checkLen initial_values0 (List.replicate dimensions.length (0 : ℚ))
      dimensions.length
      "The arrays for initial values and dimension sizes must be the same." with
  | Except.error e => Except.error e
  | Except.ok initial_values =>
  match checkLen labels0 (List.replicate dimensions.length "") dimensions.length
      "The arrays for labels and dimension sizes must be the same." with
  | Except.error e => Except.error e
  | Except.ok labels =>
  let indices := make_position_mat dimensions
  match npBroadcastAddMul initial_values steps indices with
  | Except.error e => Except.error e
  | Except.ok values =>
  let ds_indices : MicroDataset Nat :=
    if is_spectral then
      { name := "Spectroscopic_Indices", data := transposeM 0 indices,
        labels := get_spectral_slicing labels none, units := none }
    else
      { name := "Position_Indices", data := indices,
        labels := get_position_slicing labels none, units := none }
  let ds_values : MicroDataset ℚ :=
    if is_spectral then
      { name := "Spectroscopic_Values", data := transposeM 0 values,
        labels := get_spectral_slicing labels none, units := none }
    else
      { name := "Position_Values", data := values,
        labels := get_position_slicing labels none, units := none }
  match units0 with
  | none => Except.ok (ds_indices, ds_values)
  | some u =>
    if u.length = dimensions.length then
      Except.ok ({ ds_indices with units := some u },
                 { ds_values with units := some u })
    else Except.error "The arrays for labels and dimension sizes must be the same."

/-- Attribute values stored on the groups written by `simple_write`: the
dummy-parameter dictionary mixes strings and numbers
(`tm.time()` is embedded as a rational). -/
inductive AttrVal : Type where
  | str : String → AttrVal
  | num : ℚ → AttrVal
deriving DecidableEq

/-- Models `generate_dummy_main_parms()`.  The two values the source obtains
from the clock (`tm.strftime` and `tm.time`) are passed in as parameters. -/
def generate_dummy_main_parms (translate_date : String)
    (experiment_unix_time : ℚ) : List (String × AttrVal) :=
  [("translate_date", AttrVal.str translate_date),
   ("instrument", AttrVal.str "cypher_west"),
   ("xcams_id", AttrVal.str "abc"),
   ("user_name", AttrVal.str "John Doe"),
   ("sample_name", AttrVal.str "PZT"),
   ("sample_description", AttrVal.str "Thin Film"),
   ("project_name", AttrVal.str "Band Excitation"),
   ("project_id", AttrVal.str "CNMS_2015B_X0000"),
   ("comments", AttrVal.str "Band Excitation data"),
   ("data_tool", AttrVal.str "be_analyzer"),
   ("experiment_date", AttrVal.str "2015-10-05 14:55:05"),
   ("experiment_unix_time", AttrVal.num experiment_unix_time),
   ("grid_size_x", AttrVal.num 1),
   ("grid_size_y", AttrVal.num 1),
   ("current_position_x", AttrVal.num 1),
   ("current_position_y", AttrVal.num 1)]

/-- The observable outcome of `Translator.simple_write`: the attribute sets of
the root and `Measurement_000` groups, the names of the datasets placed under
`Channel_000`, the auxiliary names linked onto the main dataset, and the
returned path.  The actual HDF5 write is the external container writer. -/
structure SimpleWriteResult : Type where
  rootAttrs : List (String × AttrVal)
  measAttrs : List (String × AttrVal)
  chanDatasetNames : List String
  linkedAuxNames : List String
  returnedPath : String
deriving DecidableEq

/-- Models `Translator.simple_write(h5_path, data_name, translator_name,
ds_main, aux_dset_list, parm_dict)`.  Datasets are identified by their names
(the only field the assembly logic reads).  `parm_dict` defaults to the empty
dict and becomes the `Measurement_000` attributes; the root attributes are the
dummy parameters with `data_type` and `translator` assigned afterwards. -/
def simple_write (h5_path data_name translator_name : String)
    (ds_main_name : String) (aux_dset_names : List String)
    (parm_dict : Option (List (String × AttrVal)))
    (translate_date : String) (experiment_unix_time : ℚ) : SimpleWriteResult :=
  let parm_dict := parm_dict.getD []
  let global_parms :=
    dictInsert
      (dictInsert (generate_dummy_main_parms translate_date experiment_unix_time)
        "data_type" (AttrVal.str data_name))
      "translator" (AttrVal.str translator_name)
  { rootAttrs := global_parms
    measAttrs := parm_dict
    chanDatasetNames := ds_main_name :: aux_dset_names
    linkedAuxNames := aux_dset_names
    returnedPath := h5_path }

/-! ### Helper lemmas about `npTile`, `posCol` and `make_position_mat` -/

theorem npTile_succ {α : Type} (l : List α) (n : Nat) :
    npTile l (n + 1) = l ++ npTile l n := by
  simp [npTile, List.replicate_succ]

theorem npTile_length {α : Type} (l : List α) (n : Nat) :
    (npTile l n).length = n * l.length := by
  induction n with
  | zero => simp [npTile]
  | succ m ih => rw [npTile_succ, List.length_append, ih]; ring

theorem npTile_getElem? {α : Type} (l : List α) (n r : Nat)
    (hr : r < n * l.length) : (npTile l n)[r]? = l[r % l.length]? := by
  induction n generalizing r with
  | zero =>
    exfalso
    simp at hr
  | succ m ih =>
    have hsm : (m + 1) * l.length = m * l.length + l.length := Nat.succ_mul m l.length
    rw [npTile_succ]
    by_cases hcase : r < l.length
    · rw [List.getElem?_append_left hcase, Nat.mod_eq_of_lt hcase]
    · have hle : l.length ≤ r := Nat.le_of_not_lt hcase
      rw [List.getElem?_append_right hle, ih (r - l.length) (by omega),
        Nat.mod_eq_sub_mod hle]

theorem posCol_part2 (num_steps : List Nat) (indx : Nat) :
    (if 0 < indx then (num_steps.take indx).prod else 1)
      = (num_steps.take indx).prod := by
  split
  · rfl
  · have : indx = 0 := by omega
    simp [this]

theorem posCol_part3 (num_steps : List Nat) (indx : Nat) :
    (if indx + 1 = num_steps.length then 1 else (num_steps.drop (indx + 1)).prod)
      = (num_steps.drop (indx + 1)).prod := by
  split
  · rename_i h
    rw [h, List.drop_length]
    rfl
  · rfl

theorem posCol_eq (num_steps : List Nat) (indx : Nat) :
    posCol num_steps indx
      = npTile ((List.range (num_steps.take (indx + 1)).prod).map
          (fun r => r / (num_steps.take indx).prod))
          (num_steps.drop (indx + 1)).prod := by
  rw [posCol, posCol_part2, posCol_part3]

theorem posCol_length (num_steps : List Nat) (indx : Nat) :
    (posCol num_steps indx).length = num_steps.prod := by
  rw [posCol_eq, npTile_length, List.length_map, List.length_range,
    Nat.mul_comm, List.prod_take_mul_prod_drop]

theorem posCol_getElem? (num_steps : List Nat) (indx r : Nat)
    (hpos : ∀ s ∈ num_steps, 0 < s) (hr : r < num_steps.prod) :
    (posCol num_steps indx)[r]?
      = some ((r % (num_steps.take (indx + 1)).prod) / (num_steps.take indx).prod) := by
  have hp1 : 0 < (num_steps.take (indx + 1)).prod :=
    List.prod_pos (fun a ha => hpos a (List.mem_of_mem_take ha))
  rw [posCol_eq, npTile_getElem?, List.getElem?_map]
  · have hmod : r % (num_steps.take (indx + 1)).prod < (num_steps.take (indx + 1)).prod :=
      Nat.mod_lt r hp1
    rw [List.length_map, List.length_range, List.getElem?_range hmod]
    rfl
  · rw [List.length_map, List.length_range, Nat.mul_comm,
      List.prod_take_mul_prod_drop]
    exact hr

theorem range_filter_getElem? (p : Nat → Bool) (n i : Nat) (hi : i < n)
    (hp : p i = true) :
    ((List.range n).filter p)[((List.range i).filter p).length]? = some i := by
  have hn : n = (i + 1) + (n - (i + 1)) := by omega
  rw [hn, List.range_add, List.filter_append, List.range_succ, List.filter_append]
  have hfi : List.filter p [i] = [i] := by simp [hp]
  rw [hfi, List.append_assoc]
  rw [List.getElem?_append_right (Nat.le_refl _)]
  simp

theorem make_position_mat_of_active (num_steps : List Nat) (i : Nat)
    (hi : i < num_steps.length) (hact : 1 < num_steps.getD i 0) :
    make_position_mat num_steps
      = ((List.range num_steps.length).filter
          (fun k => decide (1 < num_steps.getD k 0))).map (posCol num_steps) := by
  have hmem : i ∈ (List.range num_steps.length).filter
      (fun k => decide (1 < num_steps.getD k 0)) :=
    List.mem_filter.mpr ⟨List.mem_range.mpr hi, by simpa using hact⟩
  have hne : ¬ ((List.range num_steps.length).filter
      (fun k => decide (1 < num_steps.getD k 0))).isEmpty = true := by
    intro h
    rw [List.isEmpty_iff] at h
    rw [h] at hmem
    exact absurd hmem (List.not_mem_nil i)
  rw [Bool.not_eq_true] at hne
  simp only [make_position_mat]
  rw [hne]
  rfl

theorem countActive_eq (num_steps : List Nat) :
    ((List.range num_steps.length).filter
        (fun k => decide (1 < num_steps.getD k 0))).length
      = num_steps.countP (fun s => decide (1 < s)) := by
  induction num_steps with
  | nil => simp
  | cons a t ih =>
    rw [← List.countP_eq_length_filter] at ih ⊢
    rw [List.length_cons, List.range_succ_eq_map, List.countP_cons, List.countP_map]
    have hcomp : ((fun k => decide (1 < (a :: t).getD k 0)) ∘ Nat.succ)
        = (fun k => decide (1 < t.getD k 0)) := by
      funext k
      simp [Function.comp, List.getD_cons_succ]
    rw [hcomp, ih, List.countP_cons]
    simp [List.getD_cons_zero]

/-! ### Claims C1 and C2: the closed-form index formula and the shape law -/

/-- Claim C1: `make_position_mat` implements the closed-form index formula:
for every sequence of positive axis sizes (fastest-varying first) and every
active axis `i` (size above 1), the entry of that axis's output column (the
column whose position is the number of active axes before `i`) at row `r`
equals `floor((r mod part1_i) / part2_i)` with `part1_i = prod(sizes[0..i])`
and `part2_i = prod(sizes[0..i-1])`; in particular, for sizes `[3, 2]` the
result has columns `[0,1,2,0,1,2]` and `[0,0,0,1,1,1]`. -/
theorem claim_C1 :
    (∀ (num_steps : List Nat), (∀ s ∈ num_steps, 0 < s) →
      ∀ i, i < num_steps.length → 1 < num_steps.getD i 0 →
      ∀ r, r < num_steps.prod →
      ((make_position_mat num_steps).getD
          (((List.range i).filter (fun k => decide (1 < num_steps.getD k 0))).length)
          []).getD r 0
        = (r % (num_steps.take (i + 1)).prod) / (num_steps.take i).prod) ∧
    make_position_mat [3, 2] = [[0, 1, 2, 0, 1, 2], [0, 0, 0, 1, 1, 1]] := by
  constructor
  · intro num_steps hpos i hi hact r hr
    rw [make_position_mat_of_active num_steps i hi hact]
    have hcol : (((List.range num_steps.length).filter
        (fun k => decide (1 < num_steps.getD k 0))).map (posCol num_steps)).getD
        (((List.range i).filter (fun k => decide (1 < num_steps.getD k 0))).length) []
        = posCol num_steps i := by
      rw [List.getD_eq_getElem?_getD, List.getElem?_map,
        range_filter_getElem? _ _ _ hi (by simpa using hact)]
      rfl
    rw [hcol, List.getD_eq_getElem?_getD, posCol_getElem? num_steps i r hpos hr]
    rfl
  · rfl

/-- Witness for C1 at sizes `[3, 2]`, axis `i = 1`, row `r = 4`: the second
column's entry is `floor((4 mod 6) / 3) = 1`. -/
theorem claim_C1_witness :
    ((make_position_mat [3, 2]).getD
        (((List.range 1).filter (fun k => decide (1 < ([3, 2] : List Nat).getD k 0))).length)
        []).getD 4 0
      = (4 % (([3, 2] : List Nat).take 2).prod) / (([3, 2] : List Nat).take 1).prod :=
  claim_C1.1 [3, 2] (by decide) 1 (by decide) (by decide) 4 (by decide)

/-- Claim C2: for positive axis sizes the position-mode index matrix has
`product(sizes)` rows (every column has that length), one column per axis of
size above 1 when at least one such axis exists; with every axis of size 1 the
result is the single row `[[0]]`; and in spectroscopic orientation (the
transpose) `product(sizes)` is the column count instead. -/
theorem claim_C2 :
    ∀ (num_steps : List Nat), num_steps ≠ [] → (∀ s ∈ num_steps, 0 < s) →
      (∀ c ∈ make_position_mat num_steps, c.length = num_steps.prod) ∧
      ((make_position_mat num_steps).headD []).length = num_steps.prod ∧
      (0 < num_steps.countP (fun s => decide (1 < s)) →
        (make_position_mat num_steps).length
          = num_steps.countP (fun s => decide (1 < s))) ∧
      ((∀ s ∈ num_steps, s = 1) → make_position_mat num_steps = [[0]]) ∧
      (transposeM 0 (make_position_mat num_steps)).length = num_steps.prod := by
  intro num_steps hne hpos
  have hcols : ∀ c ∈ make_position_mat num_steps, c.length = num_steps.prod := by
    intro c hc
    simp only [make_position_mat] at hc
    split at hc
    · rw [List.mem_singleton] at hc
      rw [hc, List.length_replicate]
    · obtain ⟨i, _, hci⟩ := List.mem_map.mp hc
      rw [← hci, posCol_length]
  have hmatne : make_position_mat num_steps ≠ [] := by
    simp only [make_position_mat]
    split
    · exact List.cons_ne_nil _ _
    · rename_i hfalse
      intro h
      rw [List.map_eq_nil_iff] at h
      rw [h] at hfalse
      simp at hfalse
  have hhead : ((make_position_mat num_steps).headD []).length = num_steps.prod := by
    rcases hmat : make_position_mat num_steps with _ | ⟨c, rest⟩
    · exact absurd hmat hmatne
    · have : c ∈ make_position_mat num_steps := by rw [hmat]; exact List.mem_cons_self c rest
      simpa using hcols c this
  refine ⟨hcols, hhead, ?_, ?_, ?_⟩
  · intro hcount
    rw [← countActive_eq] at hcount
    have hne' : ((List.range num_steps.length).filter
        (fun k => decide (1 < num_steps.getD k 0))).isEmpty = false := by
      rw [Bool.eq_false_iff]
      intro h
      rw [List.isEmpty_iff] at h
      rw [h] at hcount
      simp at hcount
    simp only [make_position_mat]
    rw [hne', if_neg (by simp : ¬ ((false : Bool) = true)), List.length_map]
    exact countActive_eq num_steps
  · intro hones
    have hfilter : (List.range num_steps.length).filter
        (fun k => decide (1 < num_steps.getD k 0)) = [] := by
      rw [List.filter_eq_nil_iff]
      intro k hk
      rw [List.mem_range] at hk
      have hval : num_steps.getD k 0 = 1 := by
        rw [List.getD_eq_getElem?_getD, List.getElem?_eq_getElem hk]
        exact hones _ (List.getElem_mem hk)
      simp only [decide_eq_true_eq]
      omega
    have hprod : num_steps.prod = 1 := List.prod_eq_one hones
    simp only [make_position_mat]
    rw [hfilter, hprod]
    rfl
  · rw [transposeM, List.length_map, List.length_range, hhead]

/-- Witness for C2 at sizes `[3, 1, 2]`: six rows, two columns (the singleton
axis contributes none). -/
theorem claim_C2_witness :
    ((make_position_mat [3, 1, 2]).headD []).length = ([3, 1, 2] : List Nat).prod ∧
    (make_position_mat [3, 1, 2]).length
      = ([3, 1, 2] : List Nat).countP (fun s => decide (1 < s)) := by
  have h := claim_C2 [3, 1, 2] (by decide) (by decide)
  exact ⟨h.2.1, h.2.2.1 (by decide)⟩

/-! ### Helper lemmas about `dictInsert` and the slicing dictionaries -/

theorem dictInsert_of_fresh {α : Type} (d : List (String × α)) (k : String) (v : α)
    (h : d.any (fun p => p.1 == k) = false) :
    dictInsert d k v = d ++ [(k, v)] := by
  rw [dictInsert, h]
  rfl

theorem lookup_map_replace {α : Type} (d : List (String × α)) (k : String) (v : α)
    (hd : d.any (fun p => p.1 == k) = true) :
    (d.map (fun p => if p.1 == k then (k, v) else p)).lookup k = some v := by
  induction d with
  | nil => simp at hd
  | cons p rest ih =>
    by_cases hpk : (p.1 == k) = true
    · rw [List.map_cons, if_pos hpk, List.lookup_cons, beq_self_eq_true k]
    · rw [Bool.not_eq_true] at hpk
      have hrest : rest.any (fun p => p.1 == k) = true := by
        rw [List.any_cons, hpk] at hd
        simpa using hd
      have hkp : (k == p.1) = false := by
        rw [beq_eq_false_iff_ne] at hpk ⊢
        exact fun hh => hpk hh.symm
      rw [List.map_cons, if_neg (by simp [hpk]), List.lookup_cons, hkp]
      exact ih hrest

theorem lookup_map_replace_ne {α : Type} (d : List (String × α)) (k k' : String)
    (v : α) (h : k' ≠ k) :
    (d.map (fun p => if p.1 == k then (k, v) else p)).lookup k' = d.lookup k' := by
  induction d with
  | nil => rfl
  | cons p rest ih =>
    by_cases hpk : (p.1 == k) = true
    · have hp1 : p.1 = k := by rwa [beq_iff_eq] at hpk
      have hk'p : (k' == p.1) = false := by
        rw [beq_eq_false_iff_ne, hp1]
        exact h
      have hk'k : (k' == k) = false := by
        rw [beq_eq_false_iff_ne]
        exact h
      rw [List.map_cons, if_pos hpk, List.lookup_cons, hk'k, List.lookup_cons, hk'p]
      exact ih
    · rw [Bool.not_eq_true] at hpk
      rw [List.map_cons, if_neg (by simp [hpk]), List.lookup_cons, List.lookup_cons]
      cases hk'p : (k' == p.1)
      · exact ih
      · rfl

theorem lookup_append_fresh {α : Type} (d : List (String × α)) (k : String) (v : α)
    (h : d.any (fun p => p.1 == k) = false) :
    (d ++ [(k, v)]).lookup k = some v := by
  induction d with
  | nil =>
    rw [List.nil_append, List.lookup_cons, beq_self_eq_true k]
  | cons p rest ih =>
    rw [List.any_cons] at h
    have hp : (p.1 == k) = false := by
      cases hcase : (p.1 == k)
      · rfl
      · rw [hcase] at h
        simp at h
    have hrest : rest.any (fun p => p.1 == k) = false := by
      rw [hp] at h
      simpa using h
    have hkp : (k == p.1) = false := by
      rw [beq_eq_false_iff_ne] at hp ⊢
      exact fun hh => hp hh.symm
    rw [List.cons_append, List.lookup_cons, hkp]
    exact ih hrest

theorem lookup_append_of_fresh_ne {α : Type} (d : List (String × α)) (k k' : String)
    (v : α) (h : k' ≠ k) : (d ++ [(k, v)]).lookup k' = d.lookup k' := by
  induction d with
  | nil =>
    have hk'k : (k' == k) = false := by
      rw [beq_eq_false_iff_ne]
      exact h
    rw [List.nil_append, List.lookup_cons, hk'k, List.lookup_nil]
  | cons p rest ih =>
    rw [List.cons_append, List.lookup_cons, List.lookup_cons]
    cases hk'p : (k' == p.1)
    · exact ih
    · rfl

theorem lookup_dictInsert_self {α : Type} (d : List (String × α)) (k : String)
    (v : α) : (dictInsert d k v).lookup k = some v := by
  rw [dictInsert]
  cases hany : d.any (fun p => p.1 == k)
  · rw [if_neg (by simp)]
    exact lookup_append_fresh d k v hany
  · rw [if_pos rfl]
    exact lookup_map_replace d k v hany

theorem lookup_dictInsert_ne {α : Type} (d : List (String × α)) (k k' : String)
    (v : α) (h : k' ≠ k) : (dictInsert d k v).lookup k' = d.lookup k' := by
  rw [dictInsert]
  cases hany : d.any (fun p => p.1 == k)
  · rw [if_neg (by simp)]
    exact lookup_append_of_fresh_ne d k k' v h
  · rw [if_pos rfl]
    exact lookup_map_replace_ne d k k' v h

theorem foldl_dictInsert_fresh {α : Type} (f : Nat × String → α) :
    ∀ (ps : List (Nat × String)) (d : List (String × α)),
      (ps.map Prod.snd).Nodup →
      (∀ p ∈ ps, d.any (fun q => q.1 == p.2) = false) →
      ps.foldl (fun acc p => dictInsert acc p.2 (f p)) d
        = d ++ ps.map (fun p => (p.2, f p)) := by
  intro ps
  induction ps with
  | nil =>
    intro d _ _
    simp
  | cons p rest ih =>
    intro d hnd hfresh
    rw [List.map_cons, List.nodup_cons] at hnd
    rw [List.foldl_cons,
      dictInsert_of_fresh d p.2 (f p) (hfresh p (List.mem_cons_self p rest))]
    rw [ih (d ++ [(p.2, f p)]) hnd.2 ?_]
    · rw [List.append_assoc, List.map_cons]
      rfl
    · intro q hq
      rw [List.any_append]
      have h1 : d.any (fun r => r.1 == q.2) = false :=
        hfresh q (List.mem_cons_of_mem p hq)
      have h2 : (List.any [(p.2, f p)] fun r => r.1 == q.2) = false := by
        have hne : p.2 ≠ q.2 := by
          intro hcontra
          exact hnd.1 (hcontra ▸ List.mem_map_of_mem Prod.snd hq)
        simp [beq_eq_false_iff_ne, hne]
      rw [h1, h2]
      rfl

theorem mem_dictInsert {α : Type} (x : String × α) (d : List (String × α))
    (k : String) (v : α) (hx : x ∈ dictInsert d k v) : x ∈ d ∨ x = (k, v) := by
  rw [dictInsert] at hx
  split at hx
  · obtain ⟨p, hp, hpx⟩ := List.mem_map.mp hx
    by_cases hpk : (p.1 == k) = true
    · rw [if_pos hpk] at hpx
      exact Or.inr hpx.symm
    · rw [if_neg hpk] at hpx
      exact Or.inl (hpx ▸ hp)
  · rcases List.mem_append.mp hx with h | h
    · exact Or.inl h
    · exact Or.inr (List.mem_singleton.mp h)

theorem mem_foldl_dictInsert {α : Type} (f : Nat × String → α) :
    ∀ (ps : List (Nat × String)) (d : List (String × α)) (x : String × α),
      x ∈ ps.foldl (fun acc p => dictInsert acc p.2 (f p)) d →
      x ∈ d ∨ ∃ p ∈ ps, x = (p.2, f p) := by
  intro ps
  induction ps with
  | nil =>
    intro d x hx
    exact Or.inl hx
  | cons p rest ih =>
    intro d x hx
    rw [List.foldl_cons] at hx
    rcases ih (dictInsert d p.2 (f p)) x hx with h | ⟨q, hq, hxq⟩
    · rcases mem_dictInsert x d p.2 (f p) h with h' | h'
      · exact Or.inl h'
      · exact Or.inr ⟨p, List.mem_cons_self p rest, h'⟩
    · exact Or.inr ⟨q, List.mem_cons_of_mem p hq, hxq⟩

theorem lookup_foldl_dictInsert {α : Type} (f : Nat × String → α) (lab : String) :
    ∀ (ps : List (Nat × String)) (d : List (String × α)),
      (ps.foldl (fun acc p => dictInsert acc p.2 (f p)) d).lookup lab
        = (ps.reverse.find? (fun p => p.2 == lab)).elim (d.lookup lab)
            (fun q => some (f q)) := by
  intro ps
  induction ps with
  | nil =>
    intro d
    simp
  | cons p rest ih =>
    intro d
    rw [List.foldl_cons, ih (dictInsert d p.2 (f p)), List.reverse_cons,
      List.find?_append]
    cases hq : rest.reverse.find? (fun p => p.2 == lab)
    · rw [Option.none_or]
      cases hplab : (p.2 == lab)
      · have hne : lab ≠ p.2 := by
          rw [beq_eq_false_iff_ne] at hplab
          exact fun hh => hplab hh.symm
        rw [List.find?_singleton, hplab]
        simp only [Option.elim_none]
        exact lookup_dictInsert_ne d p.2 lab (f p) hne
      · have hlab : p.2 = lab := by rwa [beq_iff_eq] at hplab
        rw [List.find?_singleton, hplab]
        simp only [Option.elim_some]
        rw [← hlab]
        exact lookup_dictInsert_self d p.2 (f p)
    · rfl

theorem keys_dictInsert_replace {α : Type} (d : List (String × α)) (k : String)
    (v : α) (h : d.any (fun p => p.1 == k) = true) :
    (dictInsert d k v).map Prod.fst = d.map Prod.fst := by
  rw [dictInsert, if_pos h, List.map_map]
  apply List.map_congr_left
  intro p _
  by_cases hpk : (p.1 == k) = true
  · have : p.1 = k := by rwa [beq_iff_eq] at hpk
    simp [Function.comp, hpk, this]
  · simp [Function.comp, hpk]

theorem keys_dictInsert_append {α : Type} (d : List (String × α)) (k : String)
    (v : α) (h : d.any (fun p => p.1 == k) = false) :
    (dictInsert d k v).map Prod.fst = d.map Prod.fst ++ [k] := by
  rw [dictInsert_of_fresh d k v h, List.map_append]
  rfl

theorem not_mem_keys_of_any_false {α : Type} (d : List (String × α)) (k : String)
    (h : d.any (fun p => p.1 == k) = false) : k ∉ d.map Prod.fst := by
  intro hmem
  obtain ⟨p, hp, hpk⟩ := List.mem_map.mp hmem
  have : d.any (fun p => p.1 == k) = true :=
    List.any_eq_true.mpr ⟨p, hp, by simp [hpk]⟩
  rw [h] at this
  exact absurd this (by simp)

theorem nodup_keys_dictInsert {α : Type} (d : List (String × α)) (k : String)
    (v : α) (h : (d.map Prod.fst).Nodup) :
    ((dictInsert d k v).map Prod.fst).Nodup := by
  cases hany : d.any (fun p => p.1 == k)
  · rw [keys_dictInsert_append d k v hany]
    have hk : k ∉ d.map Prod.fst := not_mem_keys_of_any_false d k hany
    rw [List.nodup_append]
    refine ⟨h, List.nodup_singleton k, ?_⟩
    intro a ha hmem
    rw [List.mem_singleton] at hmem
    exact hk (hmem ▸ ha)
  · rw [keys_dictInsert_replace d k v hany]
    exact h

theorem nodup_keys_foldl_dictInsert {α : Type} (f : Nat × String → α) :
    ∀ (ps : List (Nat × String)) (d : List (String × α)),
      (d.map Prod.fst).Nodup →
      ((ps.foldl (fun acc p => dictInsert acc p.2 (f p)) d).map Prod.fst).Nodup := by
  intro ps
  induction ps with
  | nil =>
    intro d hd
    exact hd
  | cons p rest ih =>
    intro d hd
    rw [List.foldl_cons]
    exact ih _ (nodup_keys_dictInsert d p.2 (f p) hd)

theorem mem_keys_of_lookup_some {α : Type} (d : List (String × α)) (k : String)
    (v : α) (h : d.lookup k = some v) : k ∈ d.map Prod.fst := by
  induction d with
  | nil => simp [List.lookup_nil] at h
  | cons p rest ih =>
    rw [List.lookup_cons] at h
    cases hpk : (k == p.1)
    · rw [hpk] at h
      exact List.mem_cons_of_mem _ (ih h)
    · have : k = p.1 := by rwa [beq_iff_eq] at hpk
      rw [List.map_cons]
      exact this ▸ List.mem_cons_self _ _

theorem countP_key_of_nodup {α : Type} (d : List (String × α)) (k : String)
    (hnd : (d.map Prod.fst).Nodup) :
    d.countP (fun p => p.1 == k) = if (d.lookup k).isSome then 1 else 0 := by
  induction d with
  | nil => simp
  | cons p rest ih =>
    rw [List.map_cons, List.nodup_cons] at hnd
    rw [List.countP_cons, ih hnd.2, List.lookup_cons]
    cases hpk : (k == p.1)
    · have hp : (p.1 == k) = false := by
        rw [beq_eq_false_iff_ne] at hpk ⊢
        exact fun hh => hpk hh.symm
      simp [hp]
    · have hp1 : k = p.1 := by rwa [beq_iff_eq] at hpk
      have hrest : (rest.lookup k).isSome = false := by
        cases hlk : rest.lookup k with
        | none => rfl
        | some val =>
          exact absurd (hp1 ▸ mem_keys_of_lookup_some rest k val hlk) hnd.1
      have hp1k : (p.1 == k) = true := by
        rw [beq_iff_eq]
        exact hp1.symm
      rw [hrest]
      simp [hp1k]

/-! ### Claim C6: the per-axis slice pairs -/

/-- Claim C6: for an ordered list of (distinct) axis labels and an optional
extent bound, `get_position_slicing` maps the label at position `k` to
`(slice(bound), slice(k, k+1))` — rows `[0, bound)` (all rows when the bound
is omitted) and the single column `[k, k+1)` — and `get_spectral_slicing` maps
it to the transposed pair `(slice(k, k+1), slice(bound))`. -/
theorem claim_C6 :
    ∀ (labs : List String) (curr : Option Nat), labs.Nodup →
      get_position_slicing labs curr
        = labs.enum.map (fun p => (p.2, ((none, curr), (some p.1, some (p.1 + 1))))) ∧
      get_spectral_slicing labs curr
        = labs.enum.map (fun p => (p.2, ((some p.1, some (p.1 + 1)), (none, curr)))) := by
  intro labs curr hnd
  have hkeys : (labs.enum.map Prod.snd).Nodup := by
    rw [List.enum_map_snd]
    exact hnd
  constructor
  · have h := foldl_dictInsert_fresh
      (fun p => (((none, curr), (some p.1, some (p.1 + 1))) : PySlice × PySlice))
      labs.enum [] hkeys (fun _ _ => rfl)
    simpa [get_position_slicing] using h
  · have h := foldl_dictInsert_fresh
      (fun p => (((some p.1, some (p.1 + 1)), (none, curr)) : PySlice × PySlice))
      labs.enum [] hkeys (fun _ _ => rfl)
    simpa [get_spectral_slicing] using h

/-- Witness for C6 on labels `["X", "Y"]` with extent bound `7`. -/
theorem claim_C6_witness :
    get_position_slicing ["X", "Y"] (some 7)
      = [("X", ((none, some 7), (some 0, some 1))),
         ("Y", ((none, some 7), (some 1, some 2)))] ∧
    get_spectral_slicing ["X", "Y"] (some 7)
      = [("X", ((some 0, some 1), (none, some 7))),
         ("Y", ((some 1, some 2), (none, some 7)))] := by
  have h := claim_C6 ["X", "Y"] (some 7) (by decide)
  exact ⟨h.1.trans (by decide), h.2.trans (by decide)⟩

/-! ### More helper lemmas for the duplicate-label behavior -/

theorem zip_range_replicate {α : Type} (n : Nat) (a : α) :
    (List.range n).zip (List.replicate n a)
      = (List.range n).map (fun i => (i, a)) := by
  induction n with
  | zero => rfl
  | succ m ih =>
    rw [List.range_succ, List.replicate_succ' m a,
      List.zip_append (by rw [List.length_range, List.length_replicate]),
      List.map_append, ih]
    rfl

theorem enum_replicate {α : Type} (n : Nat) (a : α) :
    (List.replicate n a).enum = (List.range n).map (fun i => (i, a)) := by
  rw [List.enum_eq_zip_range, List.length_replicate, zip_range_replicate]

theorem find?_eq_head? {α : Type} (l : List α) (p : α → Bool)
    (h : ∀ x ∈ l, p x = true) : l.find? p = l.head? := by
  cases l with
  | nil => rfl
  | cons a t =>
    rw [List.find?_cons_of_pos t (h a (List.mem_cons_self a t)), List.head?_cons]

theorem range_getLast? (n : Nat) (hn : 0 < n) :
    (List.range n).getLast? = some (n - 1) := by
  have hn' : n = (n - 1) + 1 := by omega
  rw [hn', List.range_succ, List.getLast?_concat]
  rw [← hn']

theorem mem_enum_of_mem {α : Type} (l : List α) (lab : α) (h : lab ∈ l) :
    ∃ p ∈ l.enum, p.2 = lab := by
  obtain ⟨i, hi, hgl⟩ := List.mem_iff_getElem.mp h
  refine ⟨(i, lab), ?_, rfl⟩
  rw [List.enum_eq_zip_range]
  have h1 : (List.range l.length)[i]? = some i := List.getElem?_range hi
  have h2 : l[i]? = some lab := by rw [List.getElem?_eq_getElem hi, hgl]
  have h3 : ((List.range l.length).zip l)[i]? = some (i, lab) :=
    List.getElem?_zip_eq_some.mpr ⟨h1, h2⟩
  exact List.mem_iff_getElem?.mpr ⟨i, h3⟩

/-! ### Inversion of a successful `build_ind_val_dsets` call -/

theorem build_ok_elim (dims : List Nat) (b : Bool) (s0 i0 : Option (List ℚ))
    (l0 u0 : Option (List String)) (r : MicroDataset Nat × MicroDataset ℚ)
    (h : build_ind_val_dsets dims b s0 i0 l0 u0 = Except.ok r) :
    ∃ steps initial_values labels values,
      checkLen s0 (List.replicate dims.length (1 : ℚ)) dims.length
          "The arrays for step sizes and dimension sizes must be the same."
        = Except.ok steps ∧
      checkLen i0 (List.replicate dims.length (0 : ℚ)) dims.length
          "The arrays for initial values and dimension sizes must be the same."
        = Except.ok initial_values ∧
      checkLen l0 (List.replicate dims.length "") dims.length
          "The arrays for labels and dimension sizes must be the same."
        = Except.ok labels ∧
      npBroadcastAddMul initial_values steps (make_position_mat dims)
        = Except.ok values ∧
      r.1.data = (if b then transposeM 0 (make_position_mat dims)
        else make_position_mat dims) ∧
      r.2.data = (if b then transposeM 0 values else values) ∧
      r.1.labels = (if b then get_spectral_slicing labels none
        else get_position_slicing labels none) ∧
      r.2.labels = r.1.labels ∧
      (∀ us, u0 = some us → us.length = dims.length) := by
  simp only [build_ind_val_dsets] at h
  split at h
  · exact absurd h (by simp)
  · rename_i steps hs
    split at h
    · exact absurd h (by simp)
    · rename_i initial_values hi
      split at h
      · exact absurd h (by simp)
      · rename_i labels hl
        split at h
        · exact absurd h (by simp)
        · rename_i values hv
          refine ⟨steps, initial_values, labels, values, hs, hi, hl, hv, ?_⟩
          cases b
          · simp only [Bool.false_eq_true, if_false] at h ⊢
            split at h
            · rw [Except.ok.injEq] at h
              rw [← h]
              exact ⟨rfl, rfl, rfl, rfl, fun us hus => by simp at hus⟩
            · split at h
              · rename_i hul
                rw [Except.ok.injEq] at h
                rw [← h]
                refine ⟨rfl, rfl, rfl, rfl, fun us hus => ?_⟩
                rw [Option.some.injEq] at hus
                rw [← hus]
                exact hul
              · exact absurd h (by simp)
          · simp only [if_true] at h ⊢
            split at h
            · rw [Except.ok.injEq] at h
              rw [← h]
              exact ⟨rfl, rfl, rfl, rfl, fun us hus => by simp at hus⟩
            · split at h
              · rename_i hul
                rw [Except.ok.injEq] at h
                rw [← h]
                refine ⟨rfl, rfl, rfl, rfl, fun us hus => ?_⟩
                rw [Option.some.injEq] at hus
                rw [← hus]
                exact hul
              · exact absurd h (by simp)

theorem gps_const_labels (n : Nat) (hn : 0 < n) :
    get_position_slicing (List.replicate n "") none
      = [("", ((none, none), (some (n - 1), some n)))] := by
  have hlk : (get_position_slicing (List.replicate n "") none).lookup ""
      = some ((none, none), (some (n - 1), some n)) := by
    rw [get_position_slicing, lookup_foldl_dictInsert]
    have hall : ∀ x ∈ ((List.replicate n "").enum).reverse,
        ((fun (p : Nat × String) => p.2 == "") x) = true := by
      intro x hx
      rw [List.mem_reverse] at hx
      have hx2 := List.eq_of_mem_replicate (List.snd_mem_of_mem_enum hx)
      simp [hx2]
    rw [find?_eq_head? _ _ hall, List.head?_reverse, enum_replicate,
      List.getLast?_map, range_getLast? n hn]
    simp only [Option.map_some', Option.elim_some]
    have hsub : n - 1 + 1 = n := by omega
    rw [hsub]
  have hnodup : ((get_position_slicing (List.replicate n "") none).map
      Prod.fst).Nodup := by
    rw [get_position_slicing]
    exact nodup_keys_foldl_dictInsert _ _ [] (by simp)
  have hmem : ∀ x ∈ get_position_slicing (List.replicate n "") none, x.1 = "" := by
    intro x hx
    rw [get_position_slicing] at hx
    rcases mem_foldl_dictInsert _ _ _ x hx with hmem0 | ⟨p, hp, hxp⟩
    · exact absurd hmem0 (List.not_mem_nil x)
    · have h2 := List.eq_of_mem_replicate (List.snd_mem_of_mem_enum hp)
      rw [hxp, h2]
  rcases hd : get_position_slicing (List.replicate n "") none with _ | ⟨x, rest⟩
  · rw [hd, List.lookup_nil] at hlk
    exact absurd hlk (by simp)
  · have hx1 : x.1 = "" := hmem x (by rw [hd]; exact List.mem_cons_self x rest)
    cases hrest : rest with
    | cons y rest2 =>
      exfalso
      subst hrest
      have hy1 : y.1 = "" := hmem y
        (by rw [hd]; exact List.mem_cons_of_mem x (List.mem_cons_self y rest2))
      rw [hd, List.map_cons, List.map_cons, hx1, hy1, List.nodup_cons] at hnodup
      exact hnodup.1 (List.mem_cons_self "" _)
    | nil =>
      subst hrest
      rw [hd] at hlk
      have hbeq : ("" == x.1) = true := by
        rw [hx1]
        exact beq_self_eq_true ""
      rw [List.lookup_cons, hbeq] at hlk
      rw [Option.some.injEq] at hlk
      have hx : x = ("", ((none, none), (some (n - 1), some n))) :=
        Prod.ext hx1 hlk
      rw [hx]

theorem gss_const_labels (n : Nat) (hn : 0 < n) :
    get_spectral_slicing (List.replicate n "") none
      = [("", ((some (n - 1), some n), (none, none)))] := by
  have hlk : (get_spectral_slicing (List.replicate n "") none).lookup ""
      = some ((some (n - 1), some n), (none, none)) := by
    rw [get_spectral_slicing, lookup_foldl_dictInsert]
    have hall : ∀ x ∈ ((List.replicate n "").enum).reverse,
        ((fun (p : Nat × String) => p.2 == "") x) = true := by
      intro x hx
      rw [List.mem_reverse] at hx
      have hx2 := List.eq_of_mem_replicate (List.snd_mem_of_mem_enum hx)
      simp [hx2]
    rw [find?_eq_head? _ _ hall, List.head?_reverse, enum_replicate,
      List.getLast?_map, range_getLast? n hn]
    simp only [Option.map_some', Option.elim_some]
    have hsub : n - 1 + 1 = n := by omega
    rw [hsub]
  have hnodup : ((get_spectral_slicing (List.replicate n "") none).map
      Prod.fst).Nodup := by
    rw [get_spectral_slicing]
    exact nodup_keys_foldl_dictInsert _ _ [] (by simp)
  have hmem : ∀ x ∈ get_spectral_slicing (List.replicate n "") none, x.1 = "" := by
    intro x hx
    rw [get_spectral_slicing] at hx
    rcases mem_foldl_dictInsert _ _ _ x hx with hmem0 | ⟨p, hp, hxp⟩
    · exact absurd hmem0 (List.not_mem_nil x)
    · have h2 := List.eq_of_mem_replicate (List.snd_mem_of_mem_enum hp)
      rw [hxp, h2]
  rcases hd : get_spectral_slicing (List.replicate n "") none with _ | ⟨x, rest⟩
  · rw [hd, List.lookup_nil] at hlk
    exact absurd hlk (by simp)
  · have hx1 : x.1 = "" := hmem x (by rw [hd]; exact List.mem_cons_self x rest)
    cases hrest : rest with
    | cons y rest2 =>
      exfalso
      subst hrest
      have hy1 : y.1 = "" := hmem y
        (by rw [hd]; exact List.mem_cons_of_mem x (List.mem_cons_self y rest2))
      rw [hd, List.map_cons, List.map_cons, hx1, hy1, List.nodup_cons] at hnodup
      exact hnodup.1 (List.mem_cons_self "" _)
    | nil =>
      subst hrest
      rw [hd] at hlk
      have hbeq : ("" == x.1) = true := by
        rw [hx1]
        exact beq_self_eq_true ""
      rw [List.lookup_cons, hbeq] at hlk
      rw [Option.some.injEq] at hlk
      have hx : x = ("", ((some (n - 1), some n), (none, none))) :=
        Prod.ext hx1 hlk
      rw [hx]

/-! ### Claim C10: duplicate labels collapse to the later axis's entry -/

/-- Claim C10: both slicing dictionaries are keyed by axis label, so (1)
looking up a label in `get_position_slicing` or `get_spectral_slicing`
returns the slice pair of the LAST axis carrying that label (the `find?` over
the reversed enumeration), (2) in either orientation a label occurring in the
list owns exactly one entry, and (3) with labels omitted (every axis gets the
default empty-string label) and at least two axes, the `labels` metadata
attached to both datasets — in the source's default spectroscopic mode as
well as in position mode — is the single entry for the last axis. -/
theorem claim_C10 :
    (∀ (labs : List String) (curr : Option Nat) (lab : String),
      (get_position_slicing labs curr).lookup lab
        = (labs.enum.reverse.find? (fun p => p.2 == lab)).elim none
            (fun q => some ((none, curr), (some q.1, some (q.1 + 1))))) ∧
    (∀ (labs : List String) (curr : Option Nat) (lab : String),
      (get_spectral_slicing labs curr).lookup lab
        = (labs.enum.reverse.find? (fun p => p.2 == lab)).elim none
            (fun q => some ((some q.1, some (q.1 + 1)), (none, curr)))) ∧
    (∀ (labs : List String) (curr : Option Nat) (lab : String), lab ∈ labs →
      (get_position_slicing labs curr).countP (fun p => p.1 == lab) = 1) ∧
    (∀ (labs : List String) (curr : Option Nat) (lab : String), lab ∈ labs →
      (get_spectral_slicing labs curr).countP (fun p => p.1 == lab) = 1) ∧
    (∀ (dims : List Nat) (r : MicroDataset Nat × MicroDataset ℚ),
      2 ≤ dims.length →
      build_ind_val_dsets dims true none none none none = Except.ok r →
      r.1.labels
          = [("", ((some (dims.length - 1), some dims.length), (none, none)))] ∧
      r.2.labels = r.1.labels) ∧
    (∀ (dims : List Nat) (r : MicroDataset Nat × MicroDataset ℚ),
      2 ≤ dims.length →
      build_ind_val_dsets dims false none none none none = Except.ok r →
      r.1.labels
          = [("", ((none, none), (some (dims.length - 1), some dims.length)))] ∧
      r.2.labels = r.1.labels) := by
  have part1 : ∀ (labs : List String) (curr : Option Nat) (lab : String),
      (get_position_slicing labs curr).lookup lab
        = (labs.enum.reverse.find? (fun p => p.2 == lab)).elim none
            (fun q => some ((none, curr), (some q.1, some (q.1 + 1)))) := by
    intro labs curr lab
    rw [get_position_slicing, lookup_foldl_dictInsert, List.lookup_nil]
  have part2 : ∀ (labs : List String) (curr : Option Nat) (lab : String),
      (get_spectral_slicing labs curr).lookup lab
        = (labs.enum.reverse.find? (fun p => p.2 == lab)).elim none
            (fun q => some ((some q.1, some (q.1 + 1)), (none, curr))) := by
    intro labs curr lab
    rw [get_spectral_slicing, lookup_foldl_dictInsert, List.lookup_nil]
  refine ⟨part1, part2, ?_, ?_, ?_, ?_⟩
  · intro labs curr lab hmem
    have hnd : ((get_position_slicing labs curr).map Prod.fst).Nodup := by
      rw [get_position_slicing]
      exact nodup_keys_foldl_dictInsert _ _ [] (by simp)
    rw [countP_key_of_nodup _ lab hnd, part1 labs curr lab]
    obtain ⟨p, hp, hp2⟩ := mem_enum_of_mem labs lab hmem
    have hfind : (labs.enum.reverse.find? (fun p => p.2 == lab)).isSome := by
      rw [List.find?_isSome]
      exact ⟨p, List.mem_reverse.mpr hp, by simp [hp2]⟩
    cases hq : labs.enum.reverse.find? (fun p => p.2 == lab) with
    | none =>
      rw [hq] at hfind
      exact absurd hfind (by simp)
    | some q => simp
  · intro labs curr lab hmem
    have hnd : ((get_spectral_slicing labs curr).map Prod.fst).Nodup := by
      rw [get_spectral_slicing]
      exact nodup_keys_foldl_dictInsert _ _ [] (by simp)
    rw [countP_key_of_nodup _ lab hnd, part2 labs curr lab]
    obtain ⟨p, hp, hp2⟩ := mem_enum_of_mem labs lab hmem
    have hfind : (labs.enum.reverse.find? (fun p => p.2 == lab)).isSome := by
      rw [List.find?_isSome]
      exact ⟨p, List.mem_reverse.mpr hp, by simp [hp2]⟩
    cases hq : labs.enum.reverse.find? (fun p => p.2 == lab) with
    | none =>
      rw [hq] at hfind
      exact absurd hfind (by simp)
    | some q => simp
  · intro dims r h2 hok
    obtain ⟨steps, iv, labels, values, hs, hi, hl, hv, hd1, hd2, hl1, hl2, _⟩ :=
      build_ok_elim dims true none none none none r hok
    have hlabels : labels = List.replicate dims.length "" := by
      simp only [checkLen, Except.ok.injEq] at hl
      exact hl.symm
    rw [if_pos rfl] at hl1
    refine ⟨?_, hl2⟩
    rw [hl1, hlabels]
    exact gss_const_labels dims.length (by omega)
  · intro dims r h2 hok
    obtain ⟨steps, iv, labels, values, hs, hi, hl, hv, hd1, hd2, hl1, hl2, _⟩ :=
      build_ok_elim dims false none none none none r hok
    have hlabels : labels = List.replicate dims.length "" := by
      simp only [checkLen, Except.ok.injEq] at hl
      exact hl.symm
    rw [if_neg (by simp)] at hl1
    refine ⟨?_, hl2⟩
    rw [hl1, hlabels]
    exact gps_const_labels dims.length (by omega)

/-- Witness for C10 on the duplicated label list `["q", "q"]`: a single entry
in each orientation. -/
theorem claim_C10_witness :
    (get_position_slicing ["q", "q"] none).countP (fun p => p.1 == "q") = 1 ∧
    (get_spectral_slicing ["q", "q"] none).countP (fun p => p.1 == "q") = 1 :=
  ⟨claim_C10.2.2.1 ["q", "q"] none "q" (by decide),
   claim_C10.2.2.2.1 ["q", "q"] none "q" (by decide)⟩

/-! ### More inversion helpers -/

theorem checkLen_ok_getD {α : Type} (arr : Option (List α)) (dflt : List α)
    (n : Nat) (msg : String) (l : List α)
    (h : checkLen arr dflt n msg = Except.ok l) : l = arr.getD dflt := by
  cases arr with
  | none =>
    simp only [checkLen, Except.ok.injEq] at h
    rw [← h]
    rfl
  | some a =>
    simp only [checkLen] at h
    split at h
    · rw [Except.ok.injEq] at h
      rw [← h]
      rfl
    · exact absurd h (by simp)

theorem checkLen_ok_length {α : Type} (arr : Option (List α)) (x : α)
    (n : Nat) (msg : String) (l : List α)
    (h : checkLen arr (List.replicate n x) n msg = Except.ok l) : l.length = n := by
  cases arr with
  | none =>
    simp only [checkLen, Except.ok.injEq] at h
    rw [← h, List.length_replicate]
  | some a =>
    simp only [checkLen] at h
    split at h
    · rename_i hlen
      rw [Except.ok.injEq] at h
      rw [← h]
      exact hlen
    · exact absurd h (by simp)

theorem npBroadcastAddMul_ok_elim (iv steps : List ℚ) (ind : List (List Nat))
    (values : List (List ℚ))
    (h : npBroadcastAddMul iv steps ind = Except.ok values) :
    (ind.length = steps.length ∨ ind.length = 1 ∨ steps.length = 1) ∧
    values = (List.range (max ind.length steps.length)).map (fun k =>
      (ind.getD (if ind.length = 1 then 0 else k) []).map (fun v =>
        iv.getD (if steps.length = 1 then 0 else k) 0 +
          (Nat.cast v : ℚ) * steps.getD (if steps.length = 1 then 0 else k) 0)) := by
  simp only [npBroadcastAddMul] at h
  split at h
  · rename_i hcond
    rw [Except.ok.injEq] at h
    exact ⟨hcond, h.symm⟩
  · exact absurd h (by simp)

/-! ### Concrete evaluations of `build_ind_val_dsets` on one axis of size 2 -/

theorem build_two_pos_eval :
    build_ind_val_dsets [2] false none none none none
      = Except.ok
        (⟨"Position_Indices", [[0, 1]],
          [("", ((none, none), (some 0, some 1)))], none⟩,
         ⟨"Position_Values", [[(0 : ℚ), 1]],
          [("", ((none, none), (some 0, some 1)))], none⟩) := by
  simp +decide [build_ind_val_dsets, checkLen, make_position_mat, posCol, npTile,
    npBroadcastAddMul, get_position_slicing, dictInsert, transposeM,
    List.range_succ, List.replicate, List.enum, List.enumFrom, List.filter]

theorem build_two_spec_eval :
    build_ind_val_dsets [2] true none none none none
      = Except.ok
        (⟨"Spectroscopic_Indices", [[0], [1]],
          [("", ((some 0, some 1), (none, none)))], none⟩,
         ⟨"Spectroscopic_Values", [[(0 : ℚ)], [1]],
          [("", ((some 0, some 1), (none, none)))], none⟩) := by
  simp +decide [build_ind_val_dsets, checkLen, make_position_mat, posCol, npTile,
    npBroadcastAddMul, get_spectral_slicing, dictInsert, transposeM,
    List.range_succ, List.replicate, List.enum, List.enumFrom, List.filter]

/-! ### Claim C5: orientation law -/

/-- Claim C5: for identical axis descriptors, the index and value matrices
produced in spectroscopic mode equal the transpose of the matrices produced in
position mode. -/
theorem claim_C5 :
    ∀ (dims : List Nat) (s0 i0 : Option (List ℚ)) (l0 u0 : Option (List String))
      (rS rP : MicroDataset Nat × MicroDataset ℚ),
      build_ind_val_dsets dims true s0 i0 l0 u0 = Except.ok rS →
      build_ind_val_dsets dims false s0 i0 l0 u0 = Except.ok rP →
      rS.1.data = transposeM 0 rP.1.data ∧ rS.2.data = transposeM 0 rP.2.data := by
  intro dims s0 i0 l0 u0 rS rP hS hP
  obtain ⟨sS, iS, lS, vS, hsS, hiS, hlS, hvS, hd1S, hd2S, _, _, _⟩ :=
    build_ok_elim dims true s0 i0 l0 u0 rS hS
  obtain ⟨sP, iP, lP, vP, hsP, hiP, hlP, hvP, hd1P, hd2P, _, _, _⟩ :=
    build_ok_elim dims false s0 i0 l0 u0 rP hP
  have hseq : sS = sP := by
    have h := hsS.symm.trans hsP
    rwa [Except.ok.injEq] at h
  have hieq : iS = iP := by
    have h := hiS.symm.trans hiP
    rwa [Except.ok.injEq] at h
  have hveq : vS = vP := by
    rw [hseq, hieq] at hvS
    have h := hvS.symm.trans hvP
    rwa [Except.ok.injEq] at h
  rw [if_pos rfl] at hd1S hd2S
  rw [if_neg (by simp)] at hd1P hd2P
  constructor
  · rw [hd1S, hd1P]
  · rw [hd2S, hd2P, hveq]

/-- Witness for C5 at sizes `[2]`: the spectroscopic matrices are the
transposes of the position-mode ones. -/
theorem claim_C5_witness :
    ([[0], [1]] : List (List Nat)) = transposeM 0 [[0, 1]] ∧
    ([[(0 : ℚ)], [1]] : List (List ℚ)) = transposeM 0 [[(0 : ℚ), 1]] := by
  have h := claim_C5 [2] none none none none _ _ build_two_spec_eval build_two_pos_eval
  exact h

/-! ### Claim C3: the index-to-value round trip -/

/-- Claim C3: whenever `build_ind_val_dsets` succeeds, every entry of the value
matrix whose column exists in both the index matrix and the per-axis arrays
satisfies `value[row, k] = initial_value_k + index[row, k] * step_k` (with the
effective arrays being the supplied ones, or all-ones / all-zeros defaults);
in particular sizes `[4]` with step `[1/2]` and initial value `[10]` yield the
value data `[10, 21/2, 11, 23/2]`. -/
theorem claim_C3 :
    (∀ (dims : List Nat) (s0 i0 : Option (List ℚ)) (l0 u0 : Option (List String))
        (r : MicroDataset Nat × MicroDataset ℚ),
      build_ind_val_dsets dims false s0 i0 l0 u0 = Except.ok r →
      ∀ k, k < r.1.data.length → k < dims.length →
      ∀ row, row < (r.1.data.getD k []).length →
      (r.2.data.getD k []).getD row 0
        = (i0.getD (List.replicate dims.length 0)).getD k 0
          + ((r.1.data.getD k []).getD row 0 : ℚ)
            * (s0.getD (List.replicate dims.length 1)).getD k 0) ∧
    Except.map (fun r => r.2.data)
        (build_ind_val_dsets [4] false (some [1/2]) (some [10]) none none)
      = Except.ok [[10, 21/2, 11, 23/2]] := by
  constructor
  · intro dims s0 i0 l0 u0 r hok k hk1 hk2 row hrow
    obtain ⟨steps, iv, labels, values, hs, hi, hl, hv, hd1, hd2, _, _, _⟩ :=
      build_ok_elim dims false s0 i0 l0 u0 r hok
    rw [if_neg (by simp)] at hd1 hd2
    obtain ⟨hcond, hval⟩ :=
      npBroadcastAddMul_ok_elim iv steps (make_position_mat dims) values hv
    have hsl : steps.length = dims.length := checkLen_ok_length s0 1 dims.length _ steps hs
    have hk1' : k < (make_position_mat dims).length := by
      rw [hd1] at hk1
      exact hk1
    have hrow' : row < ((make_position_mat dims).getD k []).length := by
      rw [hd1] at hrow
      exact hrow
    have hkmax : k < max (make_position_mat dims).length steps.length :=
      lt_of_lt_of_le hk1' (le_max_left _ _)
    have hite1 : (if (make_position_mat dims).length = 1 then 0 else k) = k := by
      split
      · omega
      · rfl
    have hite2 : (if steps.length = 1 then 0 else k) = k := by
      split
      · omega
      · rfl
    have hcolval : values.getD k [] = ((make_position_mat dims).getD k []).map
        (fun v => iv.getD k 0 + (Nat.cast v : ℚ) * steps.getD k 0) := by
      conv_lhs => rw [hval]
      rw [List.getD_eq_getElem?_getD, List.getElem?_map,
        List.getElem?_range hkmax, Option.map_some', Option.getD_some, hite1, hite2]
    have hsome : ((make_position_mat dims).getD k [])[row]?
        = some (((make_position_mat dims).getD k []).getD row 0) := by
      have h1 : ((make_position_mat dims).getD k [])[row]?
          = some ((make_position_mat dims).getD k [])[row] :=
        List.getElem?_eq_getElem hrow'
      have h2 : ((make_position_mat dims).getD k []).getD row 0
          = ((make_position_mat dims).getD k [])[row] := by
        rw [List.getD_eq_getElem?_getD, h1, Option.getD_some]
      rw [h1, h2]
    rw [hd2, hcolval, List.getD_eq_getElem?_getD, List.getElem?_map, hsome,
      Option.map_some', Option.getD_some, hd1]
    rw [checkLen_ok_getD s0 _ _ _ steps hs, checkLen_ok_getD i0 _ _ _ iv hi]
  · simp +decide [build_ind_val_dsets, checkLen, make_position_mat, posCol, npTile,
      npBroadcastAddMul, get_position_slicing, dictInsert, transposeM, Except.map,
      List.range_succ, List.replicate, List.enum, List.enumFrom, List.filter]
    norm_num

/-- Witness for C3 at sizes `[2]` with defaults, column `0`, row `1`. -/
theorem claim_C3_witness :
    (([[(0 : ℚ), 1]] : List (List ℚ)).getD 0 []).getD 1 0
      = ((none : Option (List ℚ)).getD (List.replicate 1 0)).getD 0 0
        + ((([[0, 1]] : List (List Nat)).getD 0 []).getD 1 0 : ℚ)
          * ((none : Option (List ℚ)).getD (List.replicate 1 1)).getD 0 0 := by
  have h := claim_C3.1 [2] none none none none _ build_two_pos_eval 0 (by decide)
    (by decide) 1 (by decide)
  exact h

/-! ### Shape lemmas for the all-active case -/

theorem make_position_mat_length_all_active (dims : List Nat)
    (hall : ∀ s ∈ dims, 1 < s) (hne : 0 < dims.length) :
    (make_position_mat dims).length = dims.length := by
  have hcnt : dims.countP (fun s => decide (1 < s)) = dims.length :=
    List.countP_eq_length.mpr (fun a ha => by simpa using hall a ha)
  have hpos : 0 < ((List.range dims.length).filter
      (fun k => decide (1 < dims.getD k 0))).length := by
    rw [countActive_eq]
    omega
  have hne' : ((List.range dims.length).filter
      (fun k => decide (1 < dims.getD k 0))).isEmpty = false := by
    rw [Bool.eq_false_iff]
    intro hcontra
    rw [List.isEmpty_iff] at hcontra
    rw [hcontra] at hpos
    simp at hpos
  simp only [make_position_mat]
  rw [hne', if_neg (by simp : ¬ ((false : Bool) = true)), List.length_map,
    countActive_eq, hcnt]

theorem map_eq_map_range_getD {α β : Type} (l : List α) (d : α) (h : α → β) :
    l.map h = (List.range l.length).map (fun k => h (l.getD k d)) := by
  apply List.ext_getElem?
  intro j
  by_cases hj : j < l.length
  · rw [List.getElem?_map, List.getElem?_map, List.getElem?_range hj,
      List.getElem?_eq_getElem hj, Option.map_some', Option.map_some']
    have : l.getD j d = l[j] := by
      rw [List.getD_eq_getElem?_getD, List.getElem?_eq_getElem hj, Option.getD_some]
    rw [this]
  · rw [List.getElem?_map, List.getElem?_map,
      List.getElem?_eq_none (by omega : l.length ≤ j),
      List.getElem?_eq_none (by rw [List.length_range]; omega)]
    rfl

theorem values_shape_all_active (dims : List Nat) (steps iv : List ℚ)
    (values : List (List ℚ))
    (hsl : steps.length = dims.length) (hall : ∀ s ∈ dims, 1 < s)
    (hne : 0 < dims.length)
    (hv : npBroadcastAddMul iv steps (make_position_mat dims) = Except.ok values) :
    values.map List.length = (make_position_mat dims).map List.length := by
  obtain ⟨hcond, hval⟩ :=
    npBroadcastAddMul_ok_elim iv steps (make_position_mat dims) values hv
  have hm : (make_position_mat dims).length = dims.length :=
    make_position_mat_length_all_active dims hall hne
  have hmax : max (make_position_mat dims).length steps.length
      = (make_position_mat dims).length := by
    rw [hm, hsl]
    exact Nat.max_self _
  rw [hval, List.map_map, hmax,
    map_eq_map_range_getD (make_position_mat dims) [] List.length]
  apply List.map_congr_left
  intro k hk
  rw [List.mem_range] at hk
  have hite : (if (make_position_mat dims).length = 1 then 0 else k) = k := by
    split
    · omega
    · rfl
  simp only [Function.comp, hite, List.length_map]

theorem headD_length_of_map_length_eq {α β : Type} (x : List (List α))
    (y : List (List β)) (h : x.map List.length = y.map List.length) :
    (x.headD []).length = (y.headD []).length := by
  cases x with
  | nil =>
    cases y with
    | nil => rfl
    | cons c t => simp at h
  | cons c t =>
    cases y with
    | nil => simp at h
    | cons c2 t2 =>
      rw [List.map_cons, List.map_cons, List.cons.injEq] at h
      simpa using h.1

theorem transposeM_shape_congr {α β : Type} (da : α) (db : β)
    (x : List (List α)) (y : List (List β))
    (hlen : x.length = y.length)
    (hhead : (x.headD []).length = (y.headD []).length) :
    (transposeM da x).map List.length = (transposeM db y).map List.length := by
  simp only [transposeM]
  rw [List.map_map, List.map_map, hhead]
  apply List.map_congr_left
  intro r _
  simp only [Function.comp, List.length_map]
  exact hlen

/-! ### Claim C4: shape agreement between the value and index datasets -/

/-- Counterexample to C4 as stated: for sizes `[1, 5]` (a singleton axis
interleaved among the axes) with all optional arrays omitted, the returned
index matrix has one column of five entries while the value matrix has two —
the shapes differ. -/
theorem claim_C4_counterexample :
    Except.map (fun r => (r.1.data.map List.length, r.2.data.map List.length))
        (build_ind_val_dsets [1, 5] false none none none none)
      = Except.ok ([5], [5, 5]) := by
  simp +decide [build_ind_val_dsets, checkLen, make_position_mat, posCol, npTile,
    npBroadcastAddMul, get_position_slicing, dictInsert, transposeM, Except.map,
    List.range_succ, List.replicate, List.enum, List.enumFrom, List.filter]

/-- Claim C4 as amended: when every axis is active (all sizes above 1), the
value dataset returned by `build_ind_val_dsets` has exactly the same shape and
orientation as the index dataset, in both modes. -/
theorem claim_C4_amended :
    ∀ (dims : List Nat) (b : Bool) (s0 i0 : Option (List ℚ))
      (l0 u0 : Option (List String)) (r : MicroDataset Nat × MicroDataset ℚ),
      0 < dims.length → (∀ s ∈ dims, 1 < s) →
      build_ind_val_dsets dims b s0 i0 l0 u0 = Except.ok r →
      r.2.data.map List.length = r.1.data.map List.length := by
  intro dims b s0 i0 l0 u0 r hne hall hok
  obtain ⟨steps, iv, labels, values, hs, hi, hl, hv, hd1, hd2, _, _, _⟩ :=
    build_ok_elim dims b s0 i0 l0 u0 r hok
  have hsl : steps.length = dims.length :=
    checkLen_ok_length s0 1 dims.length _ steps hs
  have hshape : values.map List.length = (make_position_mat dims).map List.length :=
    values_shape_all_active dims steps iv values hsl hall hne hv
  cases b
  · rw [if_neg (by simp)] at hd1 hd2
    rw [hd1, hd2]
    exact hshape
  · rw [if_pos rfl] at hd1 hd2
    rw [hd1, hd2]
    exact transposeM_shape_congr 0 0 values (make_position_mat dims)
      (by rw [← List.length_map values List.length, hshape, List.length_map])
      (headD_length_of_map_length_eq values (make_position_mat dims) hshape)

/-- Witness for the amended C4 at sizes `[2]` in position mode. -/
theorem claim_C4_witness :
    ([[(0 : ℚ), 1]] : List (List ℚ)).map List.length
      = ([[0, 1]] : List (List Nat)).map List.length := by
  have h := claim_C4_amended [2] false none none none none _ (by decide) (by decide)
    build_two_pos_eval
  exact h

/-! ### Claim C8: slice bounds of the labels metadata -/

theorem enum_fst_lt {α : Type} (l : List α) (p : Nat × α) (h : p ∈ l.enum) :
    p.1 < l.length := by
  rw [List.enum_eq_zip_range] at h
  have h2 := List.of_mem_zip h
  exact List.mem_range.mp h2.1

theorem make_position_mat_headD_length (ns : List Nat) :
    ((make_position_mat ns).headD []).length = ns.prod := by
  have hcols : ∀ c ∈ make_position_mat ns, c.length = ns.prod := by
    intro c hc
    simp only [make_position_mat] at hc
    split at hc
    · rw [List.mem_singleton] at hc
      rw [hc, List.length_replicate]
    · obtain ⟨i, _, hci⟩ := List.mem_map.mp hc
      rw [← hci, posCol_length]
  have hmatne : make_position_mat ns ≠ [] := by
    simp only [make_position_mat]
    split
    · exact List.cons_ne_nil _ _
    · rename_i hfalse
      intro h
      rw [List.map_eq_nil_iff] at h
      rw [h] at hfalse
      simp at hfalse
  rcases hmat : make_position_mat ns with _ | ⟨c, rest⟩
  · exact absurd hmat hmatne
  · have hcm : c ∈ make_position_mat ns := by
      rw [hmat]
      exact List.mem_cons_self c rest
    simpa using hcols c hcm

theorem transposeM_headD_length {α : Type} (dflt : α) (m : List (List α))
    (hR : 0 < (m.headD []).length) :
    ((transposeM dflt m).headD []).length = m.length := by
  simp only [transposeM]
  obtain ⟨R', hR'⟩ : ∃ R', (m.headD []).length = R' + 1 :=
    ⟨(m.headD []).length - 1, by omega⟩
  rw [hR', List.range_succ_eq_map]
  simp [List.length_map]

/-- Counterexample to C8 as stated: with sizes `[1, 5]` and labels
`["a", "b"]` in position mode, the call succeeds, the index matrix has a
single column, yet the slice stored for label `"b"` selects column `[1, 2)` —
an out-of-bounds column. -/
theorem claim_C8_counterexample :
    Except.map (fun r => (r.1.data.length, r.1.labels.lookup "b"))
        (build_ind_val_dsets [1, 5] false none none (some ["a", "b"]) none)
      = Except.ok (1, some ((none, none), (some 1, some 2))) := by
  simp +decide [build_ind_val_dsets, checkLen, make_position_mat, posCol, npTile,
    npBroadcastAddMul, get_position_slicing, dictInsert, transposeM, Except.map,
    List.lookup, List.range_succ, List.replicate, List.enum, List.enumFrom,
    List.filter]

/-- Claim C8 as amended: when every axis is active (all sizes above 1), each
entry of the `labels` metadata attached to both returned datasets selects one
full in-bounds column (position mode) or one full in-bounds row (spectroscopic
mode) of the returned matrices. -/
theorem claim_C8_amended :
    ∀ (dims : List Nat) (b : Bool) (s0 i0 : Option (List ℚ))
      (l0 u0 : Option (List String)) (r : MicroDataset Nat × MicroDataset ℚ),
      (∀ s ∈ dims, 1 < s) →
      build_ind_val_dsets dims b s0 i0 l0 u0 = Except.ok r →
      r.2.labels = r.1.labels ∧
      (b = false → ∀ x ∈ r.1.labels, ∃ kk, kk < r.1.data.length ∧
        x.2 = ((none, none), (some kk, some (kk + 1)))) ∧
      (b = true → ∀ x ∈ r.1.labels, ∃ kk, kk < (r.1.data.headD []).length ∧
        x.2 = ((some kk, some (kk + 1)), (none, none))) := by
  intro dims b s0 i0 l0 u0 r hall hok
  obtain ⟨steps, iv, labels, values, hs, hi, hl, hv, hd1, hd2, hl1, hl2, _⟩ :=
    build_ok_elim dims b s0 i0 l0 u0 r hok
  have hll : labels.length = dims.length :=
    checkLen_ok_length l0 "" dims.length _ labels hl
  refine ⟨hl2, ?_, ?_⟩
  · intro hb x hx
    subst hb
    rw [if_neg (by simp)] at hd1 hl1
    rw [hl1, get_position_slicing] at hx
    rcases mem_foldl_dictInsert _ _ _ x hx with h0 | ⟨p, hp, hxp⟩
    · exact absurd h0 (List.not_mem_nil x)
    · have hfst : p.1 < labels.length := enum_fst_lt labels p hp
      refine ⟨p.1, ?_, ?_⟩
      · rw [hd1, make_position_mat_length_all_active dims hall (by omega)]
        omega
      · rw [hxp]
  · intro hb x hx
    subst hb
    rw [if_pos rfl] at hd1 hl1
    rw [hl1, get_spectral_slicing] at hx
    rcases mem_foldl_dictInsert _ _ _ x hx with h0 | ⟨p, hp, hxp⟩
    · exact absurd h0 (List.not_mem_nil x)
    · have hfst : p.1 < labels.length := enum_fst_lt labels p hp
      have hne : 0 < dims.length := by omega
      have hprodpos : 0 < ((make_position_mat dims).headD []).length := by
        rw [make_position_mat_headD_length]
        exact List.prod_pos (fun a ha => by have := hall a ha; omega)
      refine ⟨p.1, ?_, ?_⟩
      · rw [hd1, transposeM_headD_length 0 (make_position_mat dims) hprodpos,
          make_position_mat_length_all_active dims hall hne]
        omega
      · rw [hxp]

/-- Witness for the amended C8 at sizes `[2]` in position mode: the single
labels entry selects the in-bounds column `[0, 1)`. -/
theorem claim_C8_witness :
    (0 : Nat) < ([[0, 1]] : List (List Nat)).length ∧
    (("", ((none, none), (some 0, some 1))) : String × PySlice × PySlice).2
      = ((none, none), (some 0, some 1)) := by
  have h := claim_C8_amended [2] false none none none none _ (by decide)
    build_two_pos_eval
  obtain ⟨kk, hk, he⟩ := h.2.1 rfl ("", ((none, none), (some 0, some 1)))
    (List.mem_singleton.mpr rfl)
  have hkk : kk = 0 := by
    have h2 := congrArg (fun q => q.2.1) he
    simp at h2
    omega
  subst hkk
  exact ⟨by decide, he⟩

/-! ### Claim C7: when `build_ind_val_dsets` raises -/

theorem checkLen_error_elim {α : Type} (arr : Option (List α)) (dflt : List α)
    (n : Nat) (msg e : String)
    (h : checkLen arr dflt n msg = Except.error e) :
    ∃ a, arr = some a ∧ a.length ≠ n := by
  cases arr with
  | none => simp [checkLen] at h
  | some a =>
    simp only [checkLen] at h
    split at h
    · exact absurd h (by simp)
    · rename_i hlen
      exact ⟨a, rfl, hlen⟩

theorem checkLen_some_ok_length {α : Type} (a dflt : List α) (n : Nat)
    (msg : String) (l : List α)
    (h : checkLen (some a) dflt n msg = Except.ok l) : a.length = n := by
  simp only [checkLen] at h
  split at h
  · rename_i hlen
    exact hlen
  · exact absurd h (by simp)

theorem npBroadcastAddMul_error_elim (iv steps : List ℚ) (ind : List (List Nat))
    (e : String) (h : npBroadcastAddMul iv steps ind = Except.error e) :
    ¬(ind.length = steps.length ∨ ind.length = 1 ∨ steps.length = 1) := by
  simp only [npBroadcastAddMul] at h
  split at h
  · exact absurd h (by simp)
  · rename_i hc
    exact hc

theorem make_position_mat_length (dims : List Nat) :
    (make_position_mat dims).length
      = if dims.countP (fun s => decide (1 < s)) = 0 then 1
        else dims.countP (fun s => decide (1 < s)) := by
  simp only [make_position_mat]
  split
  · rename_i hemp
    have hlen0 : ((List.range dims.length).filter
        (fun k => decide (1 < dims.getD k 0))).length = 0 := by
      rw [List.isEmpty_iff] at hemp
      rw [hemp]
      rfl
    rw [countActive_eq] at hlen0
    rw [if_pos hlen0, List.length_singleton]
  · rename_i hemp
    rw [List.length_map, countActive_eq]
    have hne0 : dims.countP (fun s => decide (1 < s)) ≠ 0 := by
      intro hc
      apply hemp
      rw [← countActive_eq] at hc
      rw [List.length_eq_zero] at hc
      rw [List.isEmpty_iff]
      exact hc
    rw [if_neg hne0]

theorem broadcast_cond_iff (dims : List Nat) (hne : 0 < dims.length) :
    ((make_position_mat dims).length = dims.length ∨
     (make_position_mat dims).length = 1 ∨ dims.length = 1)
      ↔ ¬(2 ≤ dims.countP (fun s => decide (1 < s)) ∧
          dims.countP (fun s => decide (1 < s)) < dims.length) := by
  rw [make_position_mat_length]
  have hle : dims.countP (fun s => decide (1 < s)) ≤ dims.length :=
    List.countP_le_length _
  split
  · rename_i h0
    omega
  · rename_i h0
    omega

theorem build_error_elim (dims : List Nat) (b : Bool) (s0 i0 : Option (List ℚ))
    (l0 u0 : Option (List String)) (e : String)
    (h : build_ind_val_dsets dims b s0 i0 l0 u0 = Except.error e) :
    (∃ s, s0 = some s ∧ s.length ≠ dims.length) ∨
    (∃ x, i0 = some x ∧ x.length ≠ dims.length) ∨
    (∃ x, l0 = some x ∧ x.length ≠ dims.length) ∨
    (∃ x, u0 = some x ∧ x.length ≠ dims.length) ∨
    ¬((make_position_mat dims).length = dims.length ∨
      (make_position_mat dims).length = 1 ∨ dims.length = 1) := by
  simp only [build_ind_val_dsets] at h
  split at h
  · rename_i hs
    exact Or.inl (checkLen_error_elim _ _ _ _ _ hs)
  · rename_i steps hs
    have hsl : steps.length = dims.length :=
      checkLen_ok_length s0 1 dims.length _ steps hs
    split at h
    · rename_i hi
      exact Or.inr (Or.inl (checkLen_error_elim _ _ _ _ _ hi))
    · rename_i initial_values hi
      split at h
      · rename_i hl
        exact Or.inr (Or.inr (Or.inl (checkLen_error_elim _ _ _ _ _ hl)))
      · rename_i labels hl
        split at h
        · rename_i hv
          have hcond := npBroadcastAddMul_error_elim _ _ _ _ hv
          rw [hsl] at hcond
          exact Or.inr (Or.inr (Or.inr (Or.inr hcond)))
        · rename_i values hv
          cases b
          all_goals
            simp only [Bool.false_eq_true, if_false, if_true] at h
          all_goals
            split at h
          · exact absurd h (by simp)
          · split at h
            · exact absurd h (by simp)
            · rename_i u hcontra
              exact Or.inr (Or.inr (Or.inr (Or.inl ⟨u, rfl, hcontra⟩)))
          · exact absurd h (by simp)
          · split at h
            · exact absurd h (by simp)
            · rename_i u hcontra
              exact Or.inr (Or.inr (Or.inr (Or.inl ⟨u, rfl, hcontra⟩)))

/-- Counterexample to C7 as stated: for sizes `[2, 1, 3]` with every optional
array omitted, the call still raises a `ValueError` — numpy cannot broadcast
the `(1, 3)` step array against the `(6, 2)` index matrix — so the
"only if one of the supplied arrays has a mismatched length" direction fails. -/
theorem claim_C7_counterexample :
    build_ind_val_dsets [2, 1, 3] true none none none none
      = Except.error "operands could not be broadcast together" := by
  rfl

/-- Claim C7 as amended: `build_ind_val_dsets` raises a `ValueError` if and
only if a supplied per-axis array (`steps`, `initial_values`, `labels` or
`units`) has a length different from the axis count, OR the number of active
axes lies strictly between 1 and the axis count, in which case the value
broadcast fails even with all arrays omitted.  (The `units` check is performed
only after both datasets were already constructed in memory.) -/
theorem claim_C7_amended :
    ∀ (dims : List Nat) (b : Bool) (s0 i0 : Option (List ℚ))
      (l0 u0 : Option (List String)),
      0 < dims.length →
      ((∃ e, build_ind_val_dsets dims b s0 i0 l0 u0 = Except.error e) ↔
        ((∃ s, s0 = some s ∧ s.length ≠ dims.length) ∨
         (∃ x, i0 = some x ∧ x.length ≠ dims.length) ∨
         (∃ x, l0 = some x ∧ x.length ≠ dims.length) ∨
         (∃ x, u0 = some x ∧ x.length ≠ dims.length) ∨
         (2 ≤ dims.countP (fun s => decide (1 < s)) ∧
          dims.countP (fun s => decide (1 < s)) < dims.length))) := by
  intro dims b s0 i0 l0 u0 hne
  constructor
  · rintro ⟨e, he⟩
    rcases build_error_elim dims b s0 i0 l0 u0 e he with h | h | h | h | h
    · exact Or.inl h
    · exact Or.inr (Or.inl h)
    · exact Or.inr (Or.inr (Or.inl h))
    · exact Or.inr (Or.inr (Or.inr (Or.inl h)))
    · refine Or.inr (Or.inr (Or.inr (Or.inr ?_)))
      by_contra hK
      exact h ((broadcast_cond_iff dims hne).mpr hK)
  · intro hrhs
    cases hb : build_ind_val_dsets dims b s0 i0 l0 u0 with
    | error e => exact ⟨e, rfl⟩
    | ok r =>
      exfalso
      obtain ⟨steps, iv, labels, values, hs, hi, hl, hv, _, _, _, _, hu⟩ :=
        build_ok_elim dims b s0 i0 l0 u0 r hb
      have hsl : steps.length = dims.length :=
        checkLen_ok_length s0 1 dims.length _ steps hs
      rcases hrhs with ⟨s, hs0, hslen⟩ | ⟨x, hx0, hxlen⟩ | ⟨x, hx0, hxlen⟩
        | ⟨x, hx0, hxlen⟩ | hK
      · subst hs0
        exact hslen (checkLen_some_ok_length s _ _ _ steps hs)
      · subst hx0
        exact hxlen (checkLen_some_ok_length x _ _ _ iv hi)
      · subst hx0
        exact hxlen (checkLen_some_ok_length x _ _ _ labels hl)
      · exact hxlen (hu x hx0)
      · obtain ⟨hcond, _⟩ :=
          npBroadcastAddMul_ok_elim iv steps (make_position_mat dims) values hv
        rw [hsl] at hcond
        exact (broadcast_cond_iff dims hne).mp hcond hK

/-- Witness for the amended C7: supplying a two-entry step array for a single
axis raises the length-mismatch error. -/
theorem claim_C7_witness :
    ∃ e, build_ind_val_dsets [2] true (some [1, 2]) none none none
      = Except.error e :=
  (claim_C7_amended [2] true (some [1, 2]) none none none (by decide)).mpr
    (Or.inl ⟨[1, 2], rfl, by decide⟩)

/-! ### Claim C9: `simple_write` root attributes and return value -/

/-- Claim C9: for every call, `simple_write` returns the supplied destination
path, the root attributes are the generated default parameter set with the
`data_type` and `translator` fields forced to the supplied names (regardless
of the run-parameter mapping, every other key keeps its generated value), and
the caller-supplied run parameters (empty when omitted) land on the
`Measurement_000` group. -/
theorem claim_C9 :
    ∀ (h5_path data_name translator_name ds_main : String)
      (aux : List String) (parm : Option (List (String × AttrVal)))
      (date : String) (t : ℚ),
      (simple_write h5_path data_name translator_name ds_main aux parm
        date t).returnedPath = h5_path ∧
      (simple_write h5_path data_name translator_name ds_main aux parm
        date t).rootAttrs.lookup "data_type" = some (AttrVal.str data_name) ∧
      (simple_write h5_path data_name translator_name ds_main aux parm
        date t).rootAttrs.lookup "translator"
        = some (AttrVal.str translator_name) ∧
      (∀ key, key ≠ "data_type" → key ≠ "translator" →
        (simple_write h5_path data_name translator_name ds_main aux parm
          date t).rootAttrs.lookup key
          = (generate_dummy_main_parms date t).lookup key) ∧
      (simple_write h5_path data_name translator_name ds_main aux parm
        date t).measAttrs = parm.getD [] := by
  intro h5_path data_name translator_name ds_main aux parm date t
  refine ⟨rfl, ?_, ?_, ?_, rfl⟩
  · simp only [simple_write]
    rw [lookup_dictInsert_ne _ _ _ _ (by decide)]
    exact lookup_dictInsert_self _ _ _
  · simp only [simple_write]
    exact lookup_dictInsert_self _ _ _
  · intro key hk1 hk2
    simp only [simple_write]
    rw [lookup_dictInsert_ne _ _ _ _ hk2, lookup_dictInsert_ne _ _ _ _ hk1]

/-- Witness for C9 on a concrete call. -/
theorem claim_C9_witness :
    (simple_write "out.h5" "STS" "DummyTranslator" "Main_Data"
      ["Position_Indices"] none "2017_01_01" 5).returnedPath = "out.h5" ∧
    (simple_write "out.h5" "STS" "DummyTranslator" "Main_Data"
      ["Position_Indices"] none "2017_01_01" 5).rootAttrs.lookup "data_type"
      = some (AttrVal.str "STS") ∧
    (simple_write "out.h5" "STS" "DummyTranslator" "Main_Data"
      ["Position_Indices"] none "2017_01_01" 5).rootAttrs.lookup "instrument"
      = (generate_dummy_main_parms "2017_01_01" 5).lookup "instrument" := by
  have h := claim_C9 "out.h5" "STS" "DummyTranslator" "Main_Data"
    ["Position_Indices"] none "2017_01_01" 5
  exact ⟨h.1, h.2.1, h.2.2.2.1 "instrument" (by decide) (by decide)⟩
